import Mathlib

/-!
Formal model of the `system` provisioning CLI of the mathswe-ops MVP
repository (Rust crate `system`), as a shallow embedding in Lean 4.

Each definition embeds one Rust item of the crate, keeping the source's
name where Lean allows it.  Effectful Rust code (state, subprocesses,
network, file system) is embedded with explicit state passing or with
environment records holding the outcomes of the external calls; fallible
Rust code (`Result<T, E>`) is embedded with `Except`.  Machine integers
`u8`/`u16`/`i32` are embedded as `Nat`/`Int` with explicit bounds where
the code checks them.
-/

deriving instance DecidableEq for Except

namespace Mvp

/-- Image identifier (`ImageId` newtype over `String` in `image.rs`). -/
structure ImageId where
  raw : String
deriving DecidableEq, Repr

/-- The logical operation of a run (`Operation` in `main/system.rs`):
install, uninstall, reinstall or config. -/
inductive Operation where
  | install
  | uninstall
  | reinstall
  | config
deriving DecidableEq, Repr

/-- The CLI subcommands (`CliCommand` in `main/cli.rs`): `install`,
`uninstall` and `reinstall`, each carrying the list of image id strings
(clap enforces at least one; the list is modelled as-is). -/
inductive CliCommand where
  | install (images : List String)
  | uninstall (images : List String)
  | reinstall (images : List String)
deriving DecidableEq, Repr

/-- `CliCommand::to_operation` (`main/cli.rs`). -/
def CliCommand.to_operation : CliCommand → Operation
  | .install _ => .install
  | .uninstall _ => .uninstall
  | .reinstall _ => .reinstall

/-- The subcommand parser generated by `#[derive(Subcommand)]` on
`CliCommand` (`main/cli.rs`): clap recognizes exactly the kebab-cased
variant names `install`, `uninstall` and `reinstall`, binding the
remaining arguments as the image id list; any other subcommand name is a
parse error. -/
def CliCommand.from_subcommand (name : String) (images : List String) :
    Except String CliCommand :=
  if name = "install" then .ok (.install images)
  else if name = "uninstall" then .ok (.uninstall images)
  else if name = "reinstall" then .ok (.reinstall images)
  else .error ("unrecognized subcommand " ++ name)

/-- `CliCommand::success_fail_report` (`main/cli.rs`): folds one per-image
result into the accumulator `(number of Ok results, ids that failed)`.
The failing id is pushed at the end of the failure list (`Vec::push`). -/
def success_fail_report (acc : Int × List String)
    (result : Except String ImageId) : Int × List String :=
  match result with
  | .ok _ => (acc.1 + 1, acc.2)
  | .error id_raw => (acc.1, acc.2 ++ [id_raw])

/-- `CliCommand::batch_report_msg` (`main/cli.rs`): the aggregate error
message, stating the operation name and both counts. -/
def CliCommand.batch_report_msg (c : CliCommand)
    (report : Int × List String) : String :=
  match c with
  | .install _ =>
      toString report.1 ++ " images successfully installed; "
        ++ toString report.2.length ++ " images failed to install."
  | .uninstall _ =>
      toString report.1 ++ " images successfully uninstalled; "
        ++ toString report.2.length ++ " images failed to uninstall."
  | .reinstall _ =>
      toString report.1 ++ " images successfully reinstalled; "
        ++ toString report.2.length ++ " images failed to reinstall."

/-- `CliCommand::image_batch_report` (`main/cli.rs`): `Ok(())` when the
failure list is empty, otherwise `Err` with the aggregate message (the
`println!` reporting is a side effect outside the embedded data flow). -/
def CliCommand.image_batch_report (c : CliCommand)
    (report : Int × List String) : Except String Unit :=
  if report.2.isEmpty then .ok () else .error (c.batch_report_msg report)

/-- The fold in `CliCommand::execute` (`main/cli.rs`): results of the
per-image executions folded over `success_fail_report` starting from the
empty report `(0, Vec::new())`. -/
def batch_fold (results : List (Except String ImageId)) : Int × List String :=
  results.foldl success_fail_report (0, [])

/-- The `batch_image_op` closure of `CliCommand::execute` (`main/cli.rs`):
map every requested id through the per-id pipeline `exec` (which embeds
`process_image_with`: load the image, run the operation, and on any
failure print the cause and return the id as the error payload), fold the
results, and report. -/
def CliCommand.batch_image_op (c : CliCommand) (images : List String)
    (exec : String → Except String ImageId) : Except String Unit :=
  c.image_batch_report (batch_fold (images.map exec))

/-- Whether an `Except` result is `ok` (Rust `Result::is_ok`). -/
def resultOk {ε α : Type} : Except ε α → Bool
  | .ok _ => true
  | .error _ => false

/-- The error payloads of a result list, in order. -/
def errPayloads {ε α : Type} (results : List (Except ε α)) : List ε :=
  results.filterMap (fun r => match r with | .error e => some e | .ok _ => none)

/-- The requested ids whose execution fails, in input order. -/
def failedIds (images : List String)
    (exec : String → Except String ImageId) : List String :=
  images.filter (fun id => !(resultOk (exec id)))

/-- State-passing semantics of the `ImageOps` trait (`image.rs`): an image
exposes effectful `install` and `uninstall` operations.  `σ` is the state
of the outside world (file system, installed packages); each operation
returns its `Result<(), String>` outcome together with the new state. -/
structure ImageOps (σ : Type) where
  install : σ → Except String Unit × σ
  uninstall : σ → Except String Unit × σ

/-- `ImageOps::reinstall` (`image.rs`), the trait's provided method:
`self.uninstall()?; self.install()?; Ok(())` with `?` propagating the
error and short-circuiting. -/
def ImageOps.reinstall {σ : Type} (ops : ImageOps σ) (s : σ) :
    Except String Unit × σ :=
  match ops.uninstall s with
  | (.error e, s1) => (.error e, s1)
  | (.ok _, s1) =>
    match ops.install s1 with
    | (.error e, s2) => (.error e, s2)
    | (.ok _, s2) => (.ok (), s2)

/-- Modelled from the spec's words (refinement reference): `reinstall` as
literally "uninstall followed by install": run uninstall; if it fails the
outcome is the uninstall outcome and install is not run; otherwise the
outcome is the install outcome. -/
def uninstallThenInstall {σ : Type} (ops : ImageOps σ) (s : σ) :
    Except String Unit × σ :=
  match ops.uninstall s with
  | (.error e, s1) => (.error e, s1)
  | (.ok _, s1) => ops.install s1

/-- Desktop image identifiers (`DesktopImageId` in `image/desktop.rs`). -/
inductive DesktopImageId where
  | zoom
  | vscode
  | jetbrainsToolbox
  | intellijIdea
  | webstorm
  | pycharm
deriving DecidableEq, Repr

/-- `Display for DesktopImageId` (`image/desktop.rs`). -/
def DesktopImageId.toStr : DesktopImageId → String
  | .zoom => "zoom"
  | .vscode => "vscode"
  | .jetbrainsToolbox => "jetbrains-toolbox"
  | .intellijIdea => "intellij-idea"
  | .webstorm => "webstorm"
  | .pycharm => "pycharm"

/-- `ToImageId for DesktopImageId` (`image/desktop.rs`). -/
def DesktopImageId.to_image_id (id : DesktopImageId) : ImageId :=
  ⟨id.toStr⟩

/-- Server image identifiers (`ServerImageId` in `image/server.rs`). -/
inductive ServerImageId where
  | rust
  | go
  | sdkman
  | java
  | gradle
  | nvm
  | node
  | miniconda
deriving DecidableEq, Repr

/-- `Display for ServerImageId` (`image/server.rs`). -/
def ServerImageId.toStr : ServerImageId → String
  | .rust => "rust"
  | .go => "go"
  | .sdkman => "sdkman"
  | .java => "java"
  | .gradle => "gradle"
  | .nvm => "nvm"
  | .node => "node"
  | .miniconda => "miniconda"

/-- `ToImageId for ServerImageId` (`image/server.rs`). -/
def ServerImageId.to_image_id (id : ServerImageId) : ImageId :=
  ⟨id.toStr⟩

/-- `ImageInfoError` (`image.rs`): metadata read or parse failure. -/
inductive ImageInfoError where
  | ioError (msg : String)
  | serdeError (msg : String)
deriving DecidableEq, Repr

/-- `ImageOperationError` (`image.rs`). -/
inductive ImageOperationError where
  | operationNotImplemented (id : ImageId) (op : String)
  | infoError (e : ImageInfoError)
deriving DecidableEq, Repr

/-- `LoadImage::load_config` for `RepositoryImageLoader<DesktopImageId>`
(`image/repository.rs`): no desktop image supports configuration; every id
fails with `OperationNotImplemented(id, "config")`.  `κ` stands for the
configuration handle type (`Box<dyn Config>`). -/
def desktop_load_config (κ : Type) (id : DesktopImageId) :
    Except ImageOperationError κ :=
  .error (.operationNotImplemented id.to_image_id "config")

/-- `LoadImage::load_config` for `RepositoryImageLoader<ServerImageId>`
(`image/repository.rs`): only `Miniconda` loads a configuration (its
branch reads the image info and config files; that outside interaction is
the `minicondaConfig` argument); every other id fails with
`OperationNotImplemented(id, "config")`. -/
def server_load_config (κ : Type) (minicondaConfig : Except ImageOperationError κ)
    (id : ServerImageId) : Except ImageOperationError κ :=
  match id with
  | .miniconda => minicondaConfig
  | _ => .error (.operationNotImplemented id.to_image_id "config")

/-- Numeric value of an ASCII decimal digit character. -/
def digitVal (c : Char) : Nat := c.toNat - 48

/-- One accumulation step of Rust's `from_str_radix` at radix 10. -/
def parseStep (acc : Nat) (c : Char) : Nat := acc * 10 + digitVal c

/-- The numeric value of a decimal digit string (most significant first). -/
def natOfDigits (l : List Char) : Nat := l.foldl parseStep 0

/-- The error kinds of `core::num::ParseIntError` reachable from parsing an
unsigned integer: empty input, a non-digit character, or overflow past the
type's maximum. -/
inductive ParseIntErrorKind where
  | empty
  | invalidDigit
  | posOverflow
deriving DecidableEq, Repr

/-- The digit-consuming loop of Rust's `from_str_radix` for an unsigned
integer type with maximum value `max`: consume characters left to right,
failing on the first non-digit, and failing with overflow as soon as the
accumulated value would exceed `max` (`checked_mul`/`checked_add`). -/
def parseUIntLoop (max : Nat) : Nat → List Char → Except ParseIntErrorKind Nat
  | acc, [] => .ok acc
  | acc, c :: rest =>
    if c.isDigit then
      if parseStep acc c ≤ max then parseUIntLoop max (parseStep acc c) rest
      else .error .posOverflow
    else .error .invalidDigit

/-- Rust's `str::parse` for an unsigned integer type with maximum `max`:
empty input is `Empty`; one leading `+` is allowed but must be followed by
at least one character; then the digit loop runs. -/
def parseUInt (max : Nat) (s : List Char) : Except ParseIntErrorKind Nat :=
  match s with
  | [] => .error .empty
  | c :: rest =>
    if c = '+' then
      match rest with
      | [] => .error .invalidDigit
      | _ :: _ => parseUIntLoop max 0 rest
    else parseUIntLoop max 0 s

/-- `str::parse::<u8>` (used for the dotted components in `package.rs`). -/
def parse_u8 (s : List Char) : Except ParseIntErrorKind Nat := parseUInt 255 s

/-- `str::parse::<u16>` (used for the `SemVerRev` revision in `package.rs`). -/
def parse_u16 (s : List Char) : Except ParseIntErrorKind Nat := parseUInt 65535 s

/-- Rust's `str::split(sep)` over characters: `""` yields `[""]`, and every
separator occurrence opens a new (possibly empty) part. -/
def splitOnChar (sep : Char) : List Char → List (List Char)
  | [] => [[]]
  | c :: rest =>
    if c = sep then [] :: splitOnChar sep rest
    else
      match splitOnChar sep rest with
      | [] => [[c]]
      | p :: ps => (c :: p) :: ps

/-- `VersionError` (`package.rs`): a structural error with its message, or
a wrapped integer-parsing error (`DigitIntError`). -/
inductive VersionError where
  | invalidDigit (msg : String)
  | digitIntError (e : ParseIntErrorKind)
deriving DecidableEq, Repr

/-- `SemVer(u8, u8, u8)` (`package.rs`); the `u8` components are embedded
as `Nat`, with the 255 bound enforced by the parser. -/
structure SemVer where
  major : Nat
  minor : Nat
  patch : Nat
deriving DecidableEq, Repr

/-- `FromStr for SemVer` (`package.rs`): split on `'.'`, require exactly 3
parts, and parse each part as `u8`, wrapping parse errors in
`DigitIntError`. -/
def SemVer.from_str (s : String) : Except VersionError SemVer :=
  match splitOnChar '.' s.data with
  | [p0, p1, p2] =>
    match parse_u8 p0 with
    | .error e => .error (.digitIntError e)
    | .ok major =>
      match parse_u8 p1 with
      | .error e => .error (.digitIntError e)
      | .ok minor =>
        match parse_u8 p2 with
        | .error e => .error (.digitIntError e)
        | .ok patch => .ok ⟨major, minor, patch⟩
  | parts =>
      .error (.invalidDigit ("String " ++ s ++ " must have 3 digits but has "
        ++ toString parts.length))

/-- `SemVerRev(u8, u8, u8, u16)` (`package.rs`). -/
structure SemVerRev where
  major : Nat
  minor : Nat
  patch : Nat
  rev : Nat
deriving DecidableEq, Repr

/-- `FromStr for SemVerRev` (`package.rs`): split on `'.'`, require exactly
4 parts, parse the first three as `u8` and the revision as `u16`. -/
def SemVerRev.from_str (s : String) : Except VersionError SemVerRev :=
  match splitOnChar '.' s.data with
  | [p0, p1, p2, p3] =>
    match parse_u8 p0 with
    | .error e => .error (.digitIntError e)
    | .ok major =>
      match parse_u8 p1 with
      | .error e => .error (.digitIntError e)
      | .ok minor =>
        match parse_u8 p2 with
        | .error e => .error (.digitIntError e)
        | .ok patch =>
          match parse_u16 p3 with
          | .error e => .error (.digitIntError e)
          | .ok rev => .ok ⟨major, minor, patch, rev⟩
  | parts =>
      .error (.invalidDigit ("String " ++ s ++ " must have 4 digits but has "
        ++ toString parts.length))

/-- Decimal rendering of a `Nat`, most significant digit first (fuel-based
so that it evaluates in the kernel; `fuel > n` suffices). -/
def natDigitsAux : Nat → Nat → List Char
  | 0, _ => []
  | fuel + 1, n =>
    if n < 10 then [Char.ofNat (48 + n)]
    else natDigitsAux fuel (n / 10) ++ [Char.ofNat (48 + n % 10)]

/-- Decimal rendering of a `Nat` (Rust `{}` formatting of an unsigned
integer). -/
def natDigits (n : Nat) : List Char := natDigitsAux (n + 1) n

/-- `Display for SemVer` (`package.rs`): `"{}.{}.{}"`. -/
def SemVer.fmt (v : SemVer) : String :=
  ⟨natDigits v.major ++ '.' :: (natDigits v.minor ++ '.' :: natDigits v.patch)⟩

/-- `Display for SemVerRev` (`package.rs`): `"{}.{}.{}.{}"`. -/
def SemVerRev.fmt (v : SemVerRev) : String :=
  ⟨natDigits v.major ++ '.' :: (natDigits v.minor
    ++ '.' :: (natDigits v.patch ++ '.' :: natDigits v.rev))⟩

/-- A parsed URL as needed by this crate: the (lowercased) scheme and the
remainder of the serialization after the first `:`.  The `url` crate's
host/path handling beyond the scheme is not needed by any verified
property and is kept unparsed in `rest`; `parse` therefore accepts some
strings the crate would reject, and every property below conditions on a
successful parse or feeds back a serialization this model produced. -/
structure Url where
  scheme : String
  rest : String
deriving DecidableEq, Repr

/-- Characters allowed in a URL scheme after the first: ASCII
alphanumeric, `+`, `-` and `.` (RFC 3986, as enforced by the `url`
crate). -/
def validSchemeChar (c : Char) : Bool :=
  c.isAlphanum || c == '+' || c == '-' || c == '.'

/-- `Url::parse` (the `url` crate), restricted to the scheme grammar: the
input must have a `:` ending a non-empty scheme that starts with an ASCII
letter and contains only scheme characters; the scheme is lowercased. -/
def Url.parse (s : String) : Except String Url :=
  let schemeChars := s.data.takeWhile (fun c => !(c == ':'))
  match s.data.dropWhile (fun c => !(c == ':')) with
  | [] => .error "relative URL without a base"
  | _ :: rest =>
    match schemeChars with
    | [] => .error "relative URL without a base"
    | c :: cs =>
      if c.isAlpha && (c :: cs).all validSchemeChar then
        .ok ⟨⟨(c :: cs).map Char.toLower⟩, ⟨rest⟩⟩
      else .error "relative URL without a base"

/-- `Url::as_str` / `Display for Url`: the serialization
`scheme ":" rest`. -/
def Url.toStr (u : Url) : String := u.scheme ++ ":" ++ u.rest

/-- Well-formedness of a `Url` value as produced by `Url.parse`: non-empty
scheme starting with an ASCII letter, containing only scheme characters,
all lowercase. -/
def Url.wf (u : Url) : Bool :=
  match u.scheme.data with
  | [] => false
  | c :: cs =>
      c.isAlpha && (c :: cs).all (fun ch => validSchemeChar ch && (ch.toLower == ch))

/-- `HashAlgorithm` (`download/hashing.rs`): only SHA-256. -/
inductive HashAlgorithm where
  | sha256
deriving DecidableEq, Repr

/-- `Hash` (`download/hashing.rs`): digest algorithm plus the expected
digest string. -/
structure Hash where
  algorithm : HashAlgorithm
  hash : String
deriving DecidableEq, Repr

/-- `GpgKey` (`download/gpg.rs`): key source URL and expected
fingerprint. -/
structure GpgKey where
  url : Url
  fingerprint : String
deriving DecidableEq, Repr

/-- `Integrity` (`download.rs`): hash policy, GPG key policy, or none. -/
inductive Integrity where
  | hash (h : Hash)
  | gpg (k : GpgKey)
  | none
deriving DecidableEq, Repr

/-- `DownloadRequestError` (`download.rs`). -/
inductive DownloadRequestError where
  | invalidUrl (url : String) (error : String)
  | insecureProtocol (url : String)
deriving DecidableEq, Repr

/-- `DownloadRequest` (`download.rs`): validated URL plus integrity
policy. -/
structure DownloadRequest where
  url : Url
  integrity : Integrity
deriving DecidableEq, Repr

/-- `DownloadRequest::new` (`download.rs`): parse the URL, wrapping a
parse failure in `InvalidUrl`; accept exactly the scheme `"https"`,
otherwise fail with `InsecureProtocol` carrying the URL's
serialization. -/
def DownloadRequest.new (url_raw : String) (integrity : Integrity) :
    Except DownloadRequestError DownloadRequest :=
  match Url.parse url_raw with
  | .error e => .error (.invalidUrl url_raw e)
  | .ok url =>
    if url.scheme = "https" then .ok ⟨url, integrity⟩
    else .error (.insecureProtocol url.toStr)

/-- `OsArch` (`os.rs`). -/
inductive OsArch where
  | x64
deriving DecidableEq, Repr

/-- `LinuxType` (`os.rs`). -/
inductive LinuxType where
  | ubuntu
deriving DecidableEq, Repr

/-- `Os` (`os.rs`). -/
inductive Os where
  | linux (arch : OsArch) (linux_type : LinuxType)
deriving DecidableEq, Repr

/-- `UBUNTU_X64` (`os.rs`). -/
def UBUNTU_X64 : Os := .linux .x64 .ubuntu

/-- `Software` (`package.rs`): provider, display name, version string. -/
structure Software where
  provider : String
  name : String
  version : String
deriving DecidableEq, Repr

/-- `Package` (`package.rs`). -/
structure Package where
  name : String
  software : Software
  os : Os
  doc : Url
  fetch : DownloadRequest
deriving DecidableEq, Repr

/-- `Package::new` (`package.rs`). -/
def Package.new (name : String) (os : Os) (software : Software) (doc : Url)
    (fetch : DownloadRequest) : Package :=
  ⟨name, software, os, doc, fetch⟩

/-- `Package::new_managed` (`package.rs`): builds the fetch request from
the documentation URL's serialization with `Integrity::None` and calls
`.unwrap()` on the result; `none` models the panic of `unwrap` on an
`Err`. -/
def Package.new_managed (name : String) (os : Os) (software : Software)
    (doc : Url) : Option Package :=
  match DownloadRequest.new doc.toStr Integrity.none with
  | .ok req => some (Package.new name os software doc req)
  | .error _ => none

/-- Rust's `char::is_whitespace`: the Unicode `White_Space` property. -/
def rustIsWhitespace (c : Char) : Bool :=
  let n := c.toNat
  (decide (9 ≤ n) && decide (n ≤ 13)) || n == 32 || n == 133 || n == 160
    || n == 5760 || (decide (8192 ≤ n) && decide (n ≤ 8202)) || n == 8232
    || n == 8233 || n == 8239 || n == 8287 || n == 12288

/-- The normalization of `GpgKey::gpg_output_contains_fingerprint`
(`download/gpg.rs`): remove every whitespace character. -/
def remove_whitespace (s : String) : String :=
  ⟨s.data.filter (fun c => !(rustIsWhitespace c))⟩

/-- Whether the first list starts the second (building block of substring
search). -/
def startsWithChars : List Char → List Char → Bool
  | [], _ => true
  | _ :: _, [] => false
  | p :: ps, x :: xs => p == x && startsWithChars ps xs

/-- Substring containment on character lists (Rust `str::contains` with a
string pattern). -/
def str_contains (big pat : List Char) : Bool :=
  (List.range (big.length + 1)).any (fun i => startsWithChars pat (big.drop i))

/-- `GpgKey::gpg_output_contains_fingerprint` (`download/gpg.rs`): remove
all whitespace from the tool output and from the expected fingerprint,
then test substring containment of the normalized fingerprint in the
normalized output. -/
def GpgKey.gpg_output_contains_fingerprint (k : GpgKey) (output : String) : Bool :=
  str_contains (remove_whitespace output).data
    (remove_whitespace k.fingerprint).data

/-- An HTTP response (`reqwest::blocking::Response`): numeric status code
and body bytes. -/
structure HttpResponse where
  status : Nat
  body : List Nat
deriving DecidableEq, Repr

/-- `StatusCode::is_success`: `200..=299`. -/
def isSuccessStatus (s : Nat) : Bool := decide (200 ≤ s) && decide (s < 300)

/-- Canonical reason phrases of the status display (abridged table; the
verified property relies only on the numeric part of the rendering). -/
def canonical_reason (s : Nat) : String :=
  if s == 400 then "Bad Request"
  else if s == 403 then "Forbidden"
  else if s == 404 then "Not Found"
  else if s == 500 then "Internal Server Error"
  else "<unknown status code>"

/-- `Display for StatusCode`: the numeric code, a space, and the canonical
reason. -/
def statusDisplay (s : Nat) : String := toString s ++ " " ++ canonical_reason s

/-- The environment of one `Downloader::download_blocking` run
(`download.rs`): the outcome of the network GET, the destination path's
current content (if the path exists), and the outcome of
`Integrity::check` on the written bytes (that check runs gpg subprocesses
and file reads, so its outcome belongs to the environment). -/
structure DownloadEnv where
  net : Except String HttpResponse
  dest : Option (List Nat)
  integrity : List Nat → Except String Bool

/-- `Downloader::download_blocking` (`download.rs`) for a request with
filename `filename` and URL rendering `urlStr`: issue the GET; require a
success status, else fail with a message carrying the status display;
open the destination with `File::create_new` (`Downloader::to_file`),
which fails if the path already exists; stream the body into the file;
then run the integrity check, failing on a check error or on a `false`
verdict.  Returns the `io::Result<()>` outcome together with the final
destination state.  (A transport failure while streaming the body is not
modelled separately: the body is part of the response value.) -/
def download_blocking (filename urlStr : String) (env : DownloadEnv) :
    Except String Unit × Option (List Nat) :=
  match env.net with
  | .error e => (.error ("Failed to fetch " ++ urlStr ++ ": " ++ e), env.dest)
  | .ok res =>
    if isSuccessStatus res.status then
      match env.dest with
      | some old => (.error "File exists (os error 17)", some old)
      | none =>
        match env.integrity res.body with
        | .error e => (.error e, some res.body)
        | .ok true => (.ok (), some res.body)
        | .ok false =>
            (.error ("Downloaded file " ++ filename
              ++ " failed integrity check"), some res.body)
    else
      (.error ("Failed to download " ++ filename ++ ": "
        ++ statusDisplay res.status), env.dest)

/-- 2^32, the word modulus of SHA-256 arithmetic. -/
def M32 : Nat := 4294967296

/-- Addition modulo 2^32. -/
def wadd (a b : Nat) : Nat := (a + b) % M32

/-- Bitwise complement within 32 bits. -/
def wnot (a : Nat) : Nat := a ^^^ 4294967295

/-- Right rotation of a 32-bit word. -/
def rotr (n a : Nat) : Nat := ((a >>> n) ||| (a <<< (32 - n))) % M32

/-- SHA-256 schedule function σ0. -/
def smallSigma0 (x : Nat) : Nat := rotr 7 x ^^^ rotr 18 x ^^^ (x >>> 3)

/-- SHA-256 schedule function σ1. -/
def smallSigma1 (x : Nat) : Nat := rotr 17 x ^^^ rotr 19 x ^^^ (x >>> 10)

/-- SHA-256 round function Σ0. -/
def bigSigma0 (x : Nat) : Nat := rotr 2 x ^^^ rotr 13 x ^^^ rotr 22 x

/-- SHA-256 round function Σ1. -/
def bigSigma1 (x : Nat) : Nat := rotr 6 x ^^^ rotr 11 x ^^^ rotr 25 x

/-- SHA-256 choice function. -/
def chFn (e f g : Nat) : Nat := (e &&& f) ^^^ (wnot e &&& g)

/-- SHA-256 majority function. -/
def majFn (a b c : Nat) : Nat := (a &&& b) ^^^ (a &&& c) ^^^ (b &&& c)

/-- The SHA-256 round constants. -/
def K256 : List Nat :=
  [1116352408, 1899447441, 3049323471, 3921009573,
   961987163, 1508970993, 2453635748, 2870763221,
   3624381080, 310598401, 607225278, 1426881987,
   1925078388, 2162078206, 2614888103, 3248222580,
   3835390401, 4022224774, 264347078, 604807628,
   770255983, 1249150122, 1555081692, 1996064986,
   2554220882, 2821834349, 2952996808, 3210313671,
   3336571891, 3584528711, 113926993, 338241895,
   666307205, 773529912, 1294757372, 1396182291,
   1695183700, 1986661051, 2177026350, 2456956037,
   2730485921, 2820302411, 3259730800, 3345764771,
   3516065817, 3600352804, 4094571909, 275423344,
   430227734, 506948616, 659060556, 883997877,
   958139571, 1322822218, 1537002063, 1747873779,
   1955562222, 2024104815, 2227730452, 2361852424,
   2428436474, 2756734187, 3204031479, 3329325298]

/-- The SHA-256 initial hash words. -/
def H256 : List Nat :=
  [1779033703, 3144134277, 1013904242, 2773480762,
   1359893119, 2600822924, 528734635, 1541459225]

/-- Extend the 16 block words by `k` more schedule words. -/
def extendTo64 : Nat → List Nat → List Nat
  | 0, w => w
  | k + 1, w =>
    let n := w.length
    extendTo64 k (w ++ [wadd (wadd (smallSigma1 (w.getD (n - 2) 0))
      (w.getD (n - 7) 0))
      (wadd (smallSigma0 (w.getD (n - 15) 0)) (w.getD (n - 16) 0))])

/-- One SHA-256 round over the eight working words. -/
def round256 (st : List Nat) (kw : Nat × Nat) : List Nat :=
  match st with
  | [a, b, c, d, e, f, g, h] =>
    let t1 := wadd h (wadd (bigSigma1 e) (wadd (chFn e f g) (wadd kw.1 kw.2)))
    let t2 := wadd (bigSigma0 a) (majFn a b c)
    [wadd t1 t2, a, b, c, wadd d t1, e, f, g]
  | other => other

/-- Compress one 16-word block into the eight hash words. -/
def processBlock (h : List Nat) (block : List Nat) : List Nat :=
  let w := extendTo64 48 block
  let st := (K256.zip w).foldl round256 h
  (h.zip st).map (fun p => wadd p.1 p.2)

/-- The `k` big-endian bytes of a value. -/
def beBytes : Nat → Nat → List Nat
  | 0, _ => []
  | k + 1, v => beBytes k (v / 256) ++ [v % 256]

/-- Big-endian 32-bit words from bytes (in groups of four). -/
def bytesToWords : List Nat → List Nat
  | b0 :: b1 :: b2 :: b3 :: rest =>
      (((b0 * 256 + b1) * 256 + b2) * 256 + b3) :: bytesToWords rest
  | _ => []

/-- SHA-256 padding: `0x80`, zero bytes up to 56 mod 64, and the 64-bit
big-endian bit length. -/
def padMessage (msg : List Nat) : List Nat :=
  let zeros := (64 - ((msg.length + 9) % 64)) % 64
  msg ++ 0x80 :: (List.replicate zeros 0 ++ beBytes 8 (msg.length * 8))

/-- Fixed-size chunking, first chunk first (fuel-based on the list length
so that it evaluates in the kernel). -/
def chunkAux {α : Type} (n : Nat) : Nat → List α → List (List α)
  | 0, _ => []
  | _, [] => []
  | fuel + 1, l => l.take n :: chunkAux n fuel (l.drop n)

/-- Split a list into chunks of `n` elements (the last may be shorter). -/
def chunk {α : Type} (n : Nat) (l : List α) : List (List α) :=
  chunkAux n l.length l

/-- The SHA-256 digest (32 bytes) of a byte list. -/
def sha256 (msg : List Nat) : List Nat :=
  let blocks := chunk 64 (padMessage msg)
  let hFinal := blocks.foldl (fun h b => processBlock h (bytesToWords b)) H256
  (hFinal.map (beBytes 4)).flatten

/-- The lowercase hex digit of a value below 16. -/
def hexDigit (n : Nat) : Char :=
  if n < 10 then Char.ofNat (48 + n) else Char.ofNat (87 + n)

/-- The two lowercase hex characters of a byte. -/
def byteToHexChars (b : Nat) : List Char := [hexDigit (b / 16), hexDigit (b % 16)]

/-- Lowercase hexadecimal rendering of a byte list
(`format!("{:x}", hash)` in `calculate_sha256`). -/
def toLowerHex (bytes : List Nat) : String := ⟨(bytes.map byteToHexChars).flatten⟩

/-- The one-pass digest rendering of a whole content: the reference value
for the streaming implementation. -/
def sha256Hex (content : List Nat) : String := toLowerHex (sha256 content)

/-- The `sha2` crate's `Sha256` hasher as used by `calculate_sha256`,
modelled by the bytes fed so far: `update` appends input and `finalize`
digests everything fed. -/
structure Sha256Hasher where
  fed : List Nat
deriving DecidableEq, Repr

/-- `Digest::update`. -/
def Sha256Hasher.update (h : Sha256Hasher) (chunkBytes : List Nat) :
    Sha256Hasher :=
  ⟨h.fed ++ chunkBytes⟩

/-- `Digest::finalize`. -/
def Sha256Hasher.finalize (h : Sha256Hasher) : List Nat := sha256 h.fed

/-- `calculate_sha256` (`download/hashing.rs`): open the file (an open or
read failure propagates as the error), read it through a `BufReader` in
1024-byte chunks feeding `Sha256::update` (the file is never loaded whole
into the hasher in one step), finalize, and render the digest as lowercase
hexadecimal.  The file argument is the read outcome of the environment:
`.error` for an I/O failure, `.ok content` for the file's bytes. -/
def calculate_sha256 (file : Except String (List Nat)) : Except String String :=
  match file with
  | .error e => .error e
  | .ok content =>
    let hasher := (chunk 1024 content).foldl Sha256Hasher.update ⟨[]⟩
    .ok (toLowerHex hasher.finalize)

/-- `Hash::calculate_hash` (`download/hashing.rs`): dispatch on the
algorithm (only SHA-256 exists). -/
def Hash.calculate_hash (h : Hash) (file : Except String (List Nat)) :
    Except String String :=
  match h.algorithm with
  | .sha256 => calculate_sha256 file

/-- `Hash::matches` (`download/hashing.rs`): compare the stored expected
digest with the computed one by string equality (case-sensitive), keeping
I/O errors as errors. -/
def Hash.matches (h : Hash) (file : Except String (List Nat)) :
    Except String Bool :=
  (h.calculate_hash file).map (fun file_hash => h.hash == file_hash)

/-- Whether a character is a lowercase hexadecimal digit. -/
def isLowerHexChar (c : Char) : Bool := "0123456789abcdef".data.contains c

theorem success_fail_report_foldl (results : List (Except String ImageId))
    (acc : Int × List String) :
    results.foldl success_fail_report acc
      = (acc.1 + ((results.filter (fun r => resultOk r)).length : Int),
         acc.2 ++ errPayloads results) := by
  induction results generalizing acc with
  | nil => simp [errPayloads]
  | cons r rest ih =>
    cases r with
    | ok v =>
      simp only [List.foldl_cons, success_fail_report, ih]
      simp [errPayloads, resultOk]
      omega
    | error e =>
      simp only [List.foldl_cons, success_fail_report, ih]
      simp [errPayloads, resultOk]

theorem batch_fold_eq (results : List (Except String ImageId)) :
    batch_fold results
      = (((results.filter (fun r => resultOk r)).length : Int),
         errPayloads results) := by
  have h := success_fail_report_foldl results (0, [])
  simpa [batch_fold] using h

theorem errPayloads_map_eq_failedIds (images : List String)
    (exec : String → Except String ImageId)
    (hexec : ∀ id e, exec id = .error e → e = id) :
    errPayloads (images.map exec) = failedIds images exec := by
  induction images with
  | nil => simp [errPayloads, failedIds]
  | cons id rest ih =>
    simp only [List.map_cons, errPayloads, List.filterMap_cons, failedIds,
      List.filter_cons] at *
    cases h : exec id with
    | ok v => simpa [h, resultOk] using ih
    | error e =>
      have he : e = id := hexec id e h
      simpa [h, resultOk, he] using ih

theorem counts_conserved (images : List String)
    (exec : String → Except String ImageId) :
    ((images.map exec).filter (fun r => resultOk r)).length
      + (failedIds images exec).length = images.length := by
  induction images with
  | nil => simp [failedIds]
  | cons id rest ih =>
    simp only [List.map_cons, List.filter_cons, failedIds] at *
    cases h : resultOk (exec id) <;> simp [h] <;> omega

/-- C1.  Batch execution with `N` identifiers of which `K` fail: the folded
report's success count is `N − K`, its failure list is exactly the failing
identifiers in input order, every requested identifier is counted in
exactly one of success or failure, and the batch returns an error if and
only if `K > 0`.  The hypothesis `hexec` is the contract of the per-id
pipeline in `CliCommand::execute`: a failed execution yields its own id as
the error payload (`load_image_ops` and `ImageOpsExecution` both map
errors to the raw id string). -/
theorem batch_report_spec (c : CliCommand) (images : List String)
    (exec : String → Except String ImageId)
    (hexec : ∀ id e, exec id = .error e → e = id) :
    (batch_fold (images.map exec)).1
        = (images.length : Int) - ((failedIds images exec).length : Int)
    ∧ (batch_fold (images.map exec)).2 = failedIds images exec
    ∧ (batch_fold (images.map exec)).1
        + ((batch_fold (images.map exec)).2.length : Int) = (images.length : Int)
    ∧ (c.batch_image_op images exec = .ok () ↔ failedIds images exec = [])
    ∧ ((∃ msg, c.batch_image_op images exec = .error msg)
        ↔ 0 < (failedIds images exec).length) := by
  have hfold := batch_fold_eq (images.map exec)
  have herr := errPayloads_map_eq_failedIds images exec hexec
  have hcount := counts_conserved images exec
  have h1 : (batch_fold (images.map exec)).1
      = (images.length : Int) - ((failedIds images exec).length : Int) := by
    rw [hfold]
    simp only []
    omega
  have h2 : (batch_fold (images.map exec)).2 = failedIds images exec := by
    rw [hfold]
    simpa using herr
  refine ⟨h1, h2, ?_, ?_, ?_⟩
  · rw [h1, h2]
    omega
  · unfold CliCommand.batch_image_op CliCommand.image_batch_report
    rw [h2]
    constructor
    · intro h
      by_cases hemp : failedIds images exec = []
      · exact hemp
      · simp [List.isEmpty_iff, hemp] at h
    · intro h
      simp [List.isEmpty_iff, h]
  · unfold CliCommand.batch_image_op CliCommand.image_batch_report
    rw [h2]
    constructor
    · intro ⟨msg, hmsg⟩
      by_cases hemp : failedIds images exec = []
      · simp [List.isEmpty_iff, hemp] at hmsg
      · have : failedIds images exec ≠ [] := hemp
        cases hne : failedIds images exec with
        | nil => exact absurd hne hemp
        | cons a t => simp [hne]
    · intro h
      have hemp : ¬(failedIds images exec = []) := by
        intro hh
        rw [hh] at h
        simp at h
      refine ⟨c.batch_report_msg (batch_fold (images.map exec)), ?_⟩
      simp [List.isEmpty_iff, hemp]

/-- Witness for C1 at a concrete batch: ids `["zoom", "bad"]` where only
`"bad"` fails; the folded failure list is exactly `["bad"]`. -/
theorem batch_report_spec_witness :
    (batch_fold (["zoom", "bad"].map
      (fun id => if id == "bad" then Except.error id
                 else Except.ok (ImageId.mk id)))).2 = ["bad"] := by
  have hexec : ∀ id e,
      (fun id => if id == "bad" then Except.error id
                 else Except.ok (ImageId.mk id)) id = .error e → e = id := by
    intro id e h
    by_cases hb : (id == "bad") = true
    · simp [hb] at h
      exact h.symm
    · simp [hb] at h
  have h := (batch_report_spec (CliCommand.install ["zoom", "bad"])
    ["zoom", "bad"] _ hexec).2.1
  rw [h]
  decide

/-- C4.  `reinstall` is equivalent to uninstall-then-install: the two
functions agree on every image and state; when uninstall fails, reinstall
returns exactly the uninstall outcome (so install is not attempted, the
state is the post-uninstall state); when uninstall succeeds, reinstall
returns exactly the install outcome from the post-uninstall state. -/
theorem reinstall_spec {σ : Type} (ops : ImageOps σ) (s : σ) :
    ops.reinstall s = uninstallThenInstall ops s
    ∧ (∀ e s1, ops.uninstall s = (.error e, s1) → ops.reinstall s = (.error e, s1))
    ∧ (∀ s1, ops.uninstall s = (.ok (), s1) → ops.reinstall s = ops.install s1) := by
  refine ⟨?_, ?_, ?_⟩
  · unfold ImageOps.reinstall uninstallThenInstall
    rcases h : ops.uninstall s with ⟨ru, s1⟩
    cases ru with
    | error e => rfl
    | ok u =>
      cases u
      rcases h2 : ops.install s1 with ⟨ri, s2⟩
      cases ri with
      | error e => simp [h2]
      | ok v => cases v; simp [h2]
  · intro e s1 h
    unfold ImageOps.reinstall
    rw [h]
  · intro s1 h
    unfold ImageOps.reinstall
    rw [h]
    rcases h2 : ops.install s1 with ⟨ri, s2⟩
    cases ri with
    | error e => simp [h2]
    | ok v => cases v; simp [h2]

/-- Witness for C4 at a concrete image over state `Nat`: uninstall fails
from state `0` leaving state `1`, and reinstall returns exactly that
failure with that state. -/
theorem reinstall_spec_witness :
    (ImageOps.mk (fun n => (.ok (), n + 10)) (fun n => (.error "locked", n + 1))
      : ImageOps Nat).reinstall 0 = (.error "locked", 1) :=
  (reinstall_spec (ImageOps.mk (fun n => (.ok (), n + 10))
      (fun n => (.error "locked", n + 1))) 0).2.1 "locked" 1 rfl

/-- Helper for C7: no `CliCommand` value maps to `Operation::Config` (the
`CliCommand` enum of `main/cli.rs` has exactly the three variants
`Install`, `Uninstall`, `Reinstall`). -/
theorem to_operation_ne_config :
    ∀ c : CliCommand, c.to_operation ≠ Operation.config := by
  intro c
  cases c <;> simp [CliCommand.to_operation]

/-- C7 counterexample.  The CLI surface does not offer a `config`
subcommand: invoking the CLI with the subcommand `config` and an image id
is a parse error — the `CliCommand` enum of `main/cli.rs` has exactly the
three variants `Install`, `Uninstall`, `Reinstall`. -/
theorem cli_has_no_config_subcommand :
    CliCommand.from_subcommand "config" ["miniconda"]
      = .error "unrecognized subcommand config" := by
  decide

/-- C7 amended.  The CLI surface offers three subcommands — install,
uninstall, reinstall — each taking image identifiers; the repository's
configuration loading fails per id with `OperationNotImplemented` whenever
the image kind has no configuration step: always for desktop images, and
for every server image other than `miniconda`. -/
theorem cli_surface_spec :
    (∀ c : CliCommand,
      c.to_operation = Operation.install
      ∨ c.to_operation = Operation.uninstall
      ∨ c.to_operation = Operation.reinstall)
    ∧ (∀ (name : String) (images : List String),
        (∃ c2, CliCommand.from_subcommand name images = .ok c2)
        ↔ (name = "install" ∨ name = "uninstall" ∨ name = "reinstall"))
    ∧ (∀ (κ : Type) (id : DesktopImageId),
        desktop_load_config κ id
          = .error (.operationNotImplemented id.to_image_id "config"))
    ∧ (∀ (κ : Type) (cfg : Except ImageOperationError κ) (id : ServerImageId),
        id ≠ .miniconda →
        server_load_config κ cfg id
          = .error (.operationNotImplemented id.to_image_id "config")) := by
  refine ⟨?_, ?_, ?_, ?_⟩
  · intro c
    cases c with
    | install images => exact Or.inl rfl
    | uninstall images => exact Or.inr (Or.inl rfl)
    | reinstall images => exact Or.inr (Or.inr rfl)
  · intro name images
    by_cases h1 : name = "install"
    · simp [CliCommand.from_subcommand, h1]
    · by_cases h2 : name = "uninstall"
      · simp [CliCommand.from_subcommand, h1, h2]
      · by_cases h3 : name = "reinstall"
        · simp [CliCommand.from_subcommand, h1, h2, h3]
        · simp [CliCommand.from_subcommand, h1, h2, h3]
  · intro κ id
    rfl
  · intro κ cfg id h
    cases id <;> first | rfl | exact absurd rfl h

/-- Witness for C7 (amended) at concrete inputs: the server image `rust`
has no configuration step, so its config load fails with
`OperationNotImplemented("rust", "config")` even when the environment
would supply a configuration. -/
theorem cli_surface_spec_witness :
    server_load_config Unit (.ok ()) ServerImageId.rust
      = .error (.operationNotImplemented ⟨"rust"⟩ "config") :=
  cli_surface_spec.2.2.2 Unit (.ok ()) ServerImageId.rust (by decide)

theorem digitVal_ofNat (d : Nat) (h : d < 10) :
    digitVal (Char.ofNat (48 + d)) = d := by
  interval_cases d <;> decide

theorem isDigit_ofNat (d : Nat) (h : d < 10) :
    (Char.ofNat (48 + d)).isDigit = true := by
  interval_cases d <;> decide

theorem natDigitsAux_eq_natDigits :
    ∀ n fuel, n < fuel → natDigitsAux fuel n = natDigits n := by
  intro n
  induction n using Nat.strong_induction_on with
  | _ n ih =>
    intro fuel h
    match fuel, h with
    | fuel + 1, h =>
      by_cases h10 : n < 10
      · simp [natDigitsAux, h10, natDigits]
      · have hdiv : n / 10 < n := Nat.div_lt_self (by omega) (by omega)
        have h1 : natDigitsAux (fuel + 1) n
            = natDigitsAux fuel (n / 10) ++ [Char.ofNat (48 + n % 10)] := by
          simp [natDigitsAux, h10]
        have h2 : natDigits n
            = natDigitsAux n (n / 10) ++ [Char.ofNat (48 + n % 10)] := by
          simp [natDigits, natDigitsAux, h10]
        rw [h1, h2, ih (n / 10) hdiv fuel (by omega), ih (n / 10) hdiv n (by omega)]

theorem natDigits_unfold (n : Nat) :
    natDigits n = if n < 10 then [Char.ofNat (48 + n)]
      else natDigits (n / 10) ++ [Char.ofNat (48 + n % 10)] := by
  by_cases h10 : n < 10
  · simp [natDigits, natDigitsAux, h10]
  · have hdiv : n / 10 < n := Nat.div_lt_self (by omega) (by omega)
    have h1 : natDigits n
        = natDigitsAux n (n / 10) ++ [Char.ofNat (48 + n % 10)] := by
      simp [natDigits, natDigitsAux, h10]
    rw [h1, natDigitsAux_eq_natDigits (n / 10) n hdiv, if_neg h10]

theorem natDigits_ne_nil (n : Nat) : natDigits n ≠ [] := by
  rw [natDigits_unfold]
  by_cases h : n < 10 <;> simp [h]

theorem mem_natDigits_isDigit (n : Nat) :
    ∀ c ∈ natDigits n, c.isDigit = true := by
  induction n using Nat.strong_induction_on with
  | _ n ih =>
    intro c hc
    rw [natDigits_unfold] at hc
    by_cases h10 : n < 10
    · simp [h10] at hc
      rw [hc]
      exact isDigit_ofNat n h10
    · have hdiv : n / 10 < n := Nat.div_lt_self (by omega) (by omega)
      simp [h10] at hc
      rcases hc with hc | hc
      · exact ih (n / 10) hdiv c hc
      · rw [hc]
        exact isDigit_ofNat (n % 10) (Nat.mod_lt n (by omega))

theorem natOfDigits_natDigits (n : Nat) : natOfDigits (natDigits n) = n := by
  induction n using Nat.strong_induction_on with
  | _ n ih =>
    rw [natDigits_unfold]
    by_cases h10 : n < 10
    · simp [h10, natOfDigits, parseStep, digitVal_ofNat n h10]
    · have hdiv : n / 10 < n := Nat.div_lt_self (by omega) (by omega)
      simp only [h10, if_false, natOfDigits, List.foldl_append, List.foldl_cons,
        List.foldl_nil]
      have hmod : n % 10 < 10 := Nat.mod_lt n (by omega)
      rw [show List.foldl parseStep 0 (natDigits (n / 10)) = natOfDigits (natDigits (n / 10)) from rfl,
        ih (n / 10) hdiv]
      simp [parseStep, digitVal_ofNat (n % 10) hmod]
      omega

theorem foldl_parseStep_le (l : List Char) :
    ∀ acc, acc ≤ l.foldl parseStep acc := by
  induction l with
  | nil => intro acc; simp
  | cons c rest ih =>
    intro acc
    have h1 : acc ≤ parseStep acc c := by
      simp [parseStep]
      omega
    calc acc ≤ parseStep acc c := h1
      _ ≤ (c :: rest).foldl parseStep acc := by simpa using ih (parseStep acc c)

theorem parseUIntLoop_digits (max : Nat) :
    ∀ (l : List Char) (acc : Nat), (∀ c ∈ l, c.isDigit = true) → acc ≤ max →
      parseUIntLoop max acc l
        = if l.foldl parseStep acc ≤ max then .ok (l.foldl parseStep acc)
          else .error .posOverflow := by
  intro l
  induction l with
  | nil =>
    intro acc _ hacc
    simp [parseUIntLoop, hacc]
  | cons c rest ih =>
    intro acc hdig hacc
    have hc : c.isDigit = true := hdig c (List.mem_cons_self c rest)
    by_cases hov : parseStep acc c ≤ max
    · have := ih (parseStep acc c) (fun x hx => hdig x (List.mem_cons_of_mem c hx)) hov
      simp [parseUIntLoop, hc, hov, this]
    · have hmono := foldl_parseStep_le rest (parseStep acc c)
      have : ¬ (rest.foldl parseStep (parseStep acc c) ≤ max) := by omega
      simp [parseUIntLoop, hc, hov, this]

theorem parseUInt_digits (max : Nat) (l : List Char) (hne : l ≠ [])
    (hdig : ∀ c ∈ l, c.isDigit = true) :
    parseUInt max l
      = if natOfDigits l ≤ max then .ok (natOfDigits l)
        else .error .posOverflow := by
  cases l with
  | nil => exact absurd rfl hne
  | cons c rest =>
    have hc : c.isDigit = true := hdig c (List.mem_cons_self c rest)
    have hplus : ¬ (c = '+') := by
      intro h
      rw [h] at hc
      simp at hc
    simp only [parseUInt, hplus, if_false, if_neg hplus]
    exact parseUIntLoop_digits max (c :: rest) 0 hdig (Nat.zero_le max)

theorem isDigit_ne_dot {c : Char} (h : c.isDigit = true) : ¬ (c = '.') := by
  intro hcontra
  rw [hcontra] at h
  simp at h

theorem dot_not_mem_of_digits {l : List Char}
    (h : ∀ c ∈ l, c.isDigit = true) : '.' ∉ l := by
  intro hmem
  exact isDigit_ne_dot (h '.' hmem) rfl

theorem splitOnChar_ne_nil (sep : Char) (l : List Char) :
    splitOnChar sep l ≠ [] := by
  cases l with
  | nil => simp [splitOnChar]
  | cons c rest =>
    by_cases h : c = sep
    · simp [splitOnChar, h]
    · simp only [splitOnChar, h, if_false, if_neg h]
      cases splitOnChar sep rest <;> simp

theorem splitOnChar_not_mem (sep : Char) (l : List Char) (h : sep ∉ l) :
    splitOnChar sep l = [l] := by
  induction l with
  | nil => rfl
  | cons c rest ih =>
    have hc : ¬ (c = sep) := fun hh => h (hh ▸ List.mem_cons_self c rest)
    have hrest : sep ∉ rest := fun hh => h (List.mem_cons_of_mem c hh)
    simp only [splitOnChar, hc, if_false, if_neg hc, ih hrest]

theorem splitOnChar_append (sep : Char) (a rest : List Char) (h : sep ∉ a) :
    splitOnChar sep (a ++ sep :: rest) = a :: splitOnChar sep rest := by
  induction a with
  | nil => simp [splitOnChar]
  | cons c a' ih =>
    have hc : ¬ (c = sep) := fun hh => h (hh ▸ List.mem_cons_self c a')
    have ha' : sep ∉ a' := fun hh => h (List.mem_cons_of_mem c hh)
    simp only [List.cons_append, splitOnChar, hc, if_false, if_neg hc]
    rw [show List.append a' (sep :: rest) = a' ++ sep :: rest from rfl, ih ha']

theorem data_mk (l : List Char) : (String.mk l).data = l := rfl

theorem semver_from_str_digits (a b c : List Char)
    (hna : a ≠ []) (hda : ∀ ch ∈ a, ch.isDigit = true)
    (hnb : b ≠ []) (hdb : ∀ ch ∈ b, ch.isDigit = true)
    (hnc : c ≠ []) (hdc : ∀ ch ∈ c, ch.isDigit = true) :
    SemVer.from_str ⟨a ++ '.' :: (b ++ '.' :: c)⟩
      = if natOfDigits a ≤ 255 ∧ natOfDigits b ≤ 255 ∧ natOfDigits c ≤ 255
        then .ok ⟨natOfDigits a, natOfDigits b, natOfDigits c⟩
        else .error (.digitIntError .posOverflow) := by
  have hsplit : splitOnChar '.' (a ++ '.' :: (b ++ '.' :: c)) = [a, b, c] := by
    rw [splitOnChar_append '.' a _ (dot_not_mem_of_digits hda),
        splitOnChar_append '.' b _ (dot_not_mem_of_digits hdb),
        splitOnChar_not_mem '.' c (dot_not_mem_of_digits hdc)]
  simp only [SemVer.from_str, data_mk, hsplit, parse_u8,
    parseUInt_digits 255 a hna hda, parseUInt_digits 255 b hnb hdb,
    parseUInt_digits 255 c hnc hdc]
  by_cases h1 : natOfDigits a ≤ 255 <;> by_cases h2 : natOfDigits b ≤ 255 <;>
    by_cases h3 : natOfDigits c ≤ 255 <;> simp [h1, h2, h3]

theorem semver_rev_from_str_digits (a b c d : List Char)
    (hna : a ≠ []) (hda : ∀ ch ∈ a, ch.isDigit = true)
    (hnb : b ≠ []) (hdb : ∀ ch ∈ b, ch.isDigit = true)
    (hnc : c ≠ []) (hdc : ∀ ch ∈ c, ch.isDigit = true)
    (hnd : d ≠ []) (hdd : ∀ ch ∈ d, ch.isDigit = true) :
    SemVerRev.from_str ⟨a ++ '.' :: (b ++ '.' :: (c ++ '.' :: d))⟩
      = if natOfDigits a ≤ 255 ∧ natOfDigits b ≤ 255 ∧ natOfDigits c ≤ 255
          ∧ natOfDigits d ≤ 65535
        then .ok ⟨natOfDigits a, natOfDigits b, natOfDigits c, natOfDigits d⟩
        else .error (.digitIntError .posOverflow) := by
  have hsplit : splitOnChar '.' (a ++ '.' :: (b ++ '.' :: (c ++ '.' :: d)))
      = [a, b, c, d] := by
    rw [splitOnChar_append '.' a _ (dot_not_mem_of_digits hda),
        splitOnChar_append '.' b _ (dot_not_mem_of_digits hdb),
        splitOnChar_append '.' c _ (dot_not_mem_of_digits hdc),
        splitOnChar_not_mem '.' d (dot_not_mem_of_digits hdd)]
  simp only [SemVerRev.from_str, data_mk, hsplit, parse_u8, parse_u16,
    parseUInt_digits 255 a hna hda, parseUInt_digits 255 b hnb hdb,
    parseUInt_digits 255 c hnc hdc, parseUInt_digits 65535 d hnd hdd]
  by_cases h1 : natOfDigits a ≤ 255 <;> by_cases h2 : natOfDigits b ≤ 255 <;>
    by_cases h3 : natOfDigits c ≤ 255 <;> by_cases h4 : natOfDigits d ≤ 65535 <;>
    simp [h1, h2, h3, h4]

/-- C10.  Version parsing bounds every dotted component by its integer
width: for digit components `a.b.c`, `SemVer::from_str` succeeds exactly
when every component value fits in `u8` (at most 255) and otherwise fails
with a `DigitIntError` (positive overflow); `SemVerRev::from_str` likewise
bounds its first three components by 255 and its revision by 65535
(`u16`). -/
theorem version_component_bounds :
    (∀ a b c : List Char,
      a ≠ [] → (∀ ch ∈ a, ch.isDigit = true) →
      b ≠ [] → (∀ ch ∈ b, ch.isDigit = true) →
      c ≠ [] → (∀ ch ∈ c, ch.isDigit = true) →
      SemVer.from_str ⟨a ++ '.' :: (b ++ '.' :: c)⟩
        = if natOfDigits a ≤ 255 ∧ natOfDigits b ≤ 255 ∧ natOfDigits c ≤ 255
          then .ok ⟨natOfDigits a, natOfDigits b, natOfDigits c⟩
          else .error (.digitIntError .posOverflow))
    ∧ (∀ a b c d : List Char,
      a ≠ [] → (∀ ch ∈ a, ch.isDigit = true) →
      b ≠ [] → (∀ ch ∈ b, ch.isDigit = true) →
      c ≠ [] → (∀ ch ∈ c, ch.isDigit = true) →
      d ≠ [] → (∀ ch ∈ d, ch.isDigit = true) →
      SemVerRev.from_str ⟨a ++ '.' :: (b ++ '.' :: (c ++ '.' :: d))⟩
        = if natOfDigits a ≤ 255 ∧ natOfDigits b ≤ 255 ∧ natOfDigits c ≤ 255
            ∧ natOfDigits d ≤ 65535
          then .ok ⟨natOfDigits a, natOfDigits b, natOfDigits c, natOfDigits d⟩
          else .error (.digitIntError .posOverflow)) :=
  ⟨fun a b c hna hda hnb hdb hnc hdc =>
      semver_from_str_digits a b c hna hda hnb hdb hnc hdc,
   fun a b c d hna hda hnb hdb hnc hdc hnd hdd =>
      semver_rev_from_str_digits a b c d hna hda hnb hdb hnc hdc hnd hdd⟩

/-- Witness for C10 at concrete inputs: the component 256 overflows `u8`
in a `SemVer` string, and the revision 65536 overflows `u16` in a
`SemVerRev` string; both fail with `DigitIntError`. -/
theorem version_component_bounds_witness :
    SemVer.from_str ⟨"256".data ++ '.' :: ("0".data ++ '.' :: "0".data)⟩
      = .error (.digitIntError .posOverflow)
    ∧ SemVerRev.from_str
        ⟨"1".data ++ '.' :: ("2".data ++ '.' :: ("3".data ++ '.' :: "65536".data))⟩
      = .error (.digitIntError .posOverflow) := by
  constructor
  · have h := version_component_bounds.1 "256".data "0".data "0".data
      (by decide) (by decide) (by decide) (by decide) (by decide) (by decide)
    rw [h]
    decide
  · have h := version_component_bounds.2 "1".data "2".data "3".data "65536".data
      (by decide) (by decide) (by decide) (by decide) (by decide) (by decide)
      (by decide) (by decide)
    rw [h]
    decide

/-- C8 counterexample.  Parse-then-render is not the identity on every
accepted string: Rust's `u16` parsing accepts the leading zero in
`"1.2.3.04"`, which parses to `SemVerRev(1, 2, 3, 4)` and renders back to
the different string `"1.2.3.4"`. -/
theorem semver_rev_roundtrip_counterexample :
    SemVerRev.from_str "1.2.3.04" = .ok ⟨1, 2, 3, 4⟩
    ∧ SemVerRev.fmt ⟨1, 2, 3, 4⟩ = "1.2.3.4"
    ∧ ("1.2.3.4" : String) ≠ "1.2.3.04" :=
  ⟨by decide, by decide, by decide⟩

/-- C8 amended.  The round-trip holds in the render-then-parse direction,
and hence on exactly the canonically rendered version strings: for every
`SemVerRev` value within the `u8`/`u8`/`u8`/`u16` component bounds,
rendering it and parsing the result returns the same value (so a metadata
version string such as `"6.1.1.443"` re-renders identically). -/
theorem semver_rev_render_parse (a b c d : Nat)
    (ha : a ≤ 255) (hb : b ≤ 255) (hc : c ≤ 255) (hd : d ≤ 65535) :
    SemVerRev.from_str (SemVerRev.fmt ⟨a, b, c, d⟩) = .ok ⟨a, b, c, d⟩ := by
  have h := semver_rev_from_str_digits (natDigits a) (natDigits b) (natDigits c)
    (natDigits d) (natDigits_ne_nil a) (mem_natDigits_isDigit a)
    (natDigits_ne_nil b) (mem_natDigits_isDigit b)
    (natDigits_ne_nil c) (mem_natDigits_isDigit c)
    (natDigits_ne_nil d) (mem_natDigits_isDigit d)
  rw [show SemVerRev.fmt ⟨a, b, c, d⟩
      = (⟨natDigits a ++ '.' :: (natDigits b ++ '.' :: (natDigits c
          ++ '.' :: natDigits d))⟩ : String) from rfl, h]
  rw [natOfDigits_natDigits, natOfDigits_natDigits, natOfDigits_natDigits,
    natOfDigits_natDigits]
  simp [ha, hb, hc, hd]

/-- Witness for C8 (amended) at the spec's example value: rendering
`SemVerRev(6, 1, 1, 443)` gives `"6.1.1.443"` and parsing it back returns
the same value. -/
theorem semver_rev_render_parse_witness :
    SemVerRev.from_str "6.1.1.443" = .ok ⟨6, 1, 1, 443⟩ := by
  have h := semver_rev_render_parse 6 1 1 443 (by decide) (by decide)
    (by decide) (by decide)
  rw [show ("6.1.1.443" : String) = SemVerRev.fmt ⟨6, 1, 1, 443⟩ from by decide]
  exact h

theorem strData_append (a b : String) : (a ++ b).data = a.data ++ b.data := by
  cases a
  cases b
  rfl

theorem takeWhile_append_of_all (p : Char → Bool) (l1 l2 : List Char)
    (h : ∀ x ∈ l1, p x = true) :
    (l1 ++ l2).takeWhile p = l1 ++ l2.takeWhile p := by
  induction l1 with
  | nil => simp
  | cons c t ih =>
    have hc : p c = true := h c (List.mem_cons_self c t)
    have ht : ∀ x ∈ t, p x = true := fun x hx => h x (List.mem_cons_of_mem c hx)
    simp [List.takeWhile_cons, hc, ih ht]

theorem dropWhile_append_of_all (p : Char → Bool) (l1 l2 : List Char)
    (h : ∀ x ∈ l1, p x = true) :
    (l1 ++ l2).dropWhile p = l2.dropWhile p := by
  induction l1 with
  | nil => simp
  | cons c t ih =>
    have hc : p c = true := h c (List.mem_cons_self c t)
    have ht : ∀ x ∈ t, p x = true := fun x hx => h x (List.mem_cons_of_mem c hx)
    simp [List.dropWhile_cons, hc, ih ht]

theorem validSchemeChar_ne_colon {c : Char} (h : validSchemeChar c = true) :
    (!(c == ':')) = true := by
  by_cases hc : c = ':'
  · rw [hc] at h
    simp [validSchemeChar] at h
  · simp [hc]

theorem url_parse_toStr (u : Url) (hwf : u.wf = true) :
    Url.parse u.toStr = .ok u := by
  obtain ⟨sch, rst⟩ := u
  cases hs : sch.data with
  | nil => simp [Url.wf, hs] at hwf
  | cons c cs =>
    simp only [Url.wf, hs, List.all_cons, Bool.and_eq_true] at hwf
    obtain ⟨halpha, ⟨hc1, hc2⟩, hall⟩ := hwf
    have hallmem : ∀ x ∈ c :: cs, validSchemeChar x = true ∧ x.toLower = x := by
      intro x hx
      cases hx with
      | head => exact ⟨hc1, by simpa using hc2⟩
      | tail _ hx =>
        have := List.all_eq_true.mp hall x hx
        simp only [Bool.and_eq_true] at this
        exact ⟨this.1, by simpa using this.2⟩
    have hdata : (Url.toStr ⟨sch, rst⟩).data = sch.data ++ ':' :: rst.data := by
      simp [Url.toStr, strData_append]
    have hne : ∀ x ∈ sch.data, (!(x == ':')) = true := by
      intro x hx
      rw [hs] at hx
      exact validSchemeChar_ne_colon (hallmem x hx).1
    have htake : (Url.toStr ⟨sch, rst⟩).data.takeWhile (fun c => !(c == ':'))
        = sch.data := by
      rw [hdata, takeWhile_append_of_all _ _ _ hne]
      simp [List.takeWhile_cons]
    have hdrop : (Url.toStr ⟨sch, rst⟩).data.dropWhile (fun c => !(c == ':'))
        = ':' :: rst.data := by
      rw [hdata, dropWhile_append_of_all _ _ _ hne]
      simp [List.dropWhile_cons]
    have hvalid : (c :: cs).all validSchemeChar = true := by
      rw [List.all_eq_true]
      intro x hx
      exact (hallmem x hx).1
    have hmap : (c :: cs).map Char.toLower = c :: cs := by
      have hid : ∀ x ∈ c :: cs, Char.toLower x = x := fun x hx => (hallmem x hx).2
      calc (c :: cs).map Char.toLower = (c :: cs).map id := List.map_congr_left hid
        _ = c :: cs := List.map_id _
    simp only [Url.parse, htake, hdrop, hs, halpha, hvalid, Bool.and_self,
      if_true]
    rw [hmap, ← hs]

/-- C2.  Constructing a `DownloadRequest` from a URL string that parses to
a non-`https` scheme fails with `InsecureProtocol` (before any network
I/O — the constructor is pure); constructing one from any string that
parses to an `https` URL succeeds; and every successfully constructed
request has URL scheme `https`. -/
theorem download_request_new_spec (s : String) (i : Integrity) :
    (∀ u, Url.parse s = .ok u → u.scheme ≠ "https" →
      DownloadRequest.new s i = .error (.insecureProtocol u.toStr))
    ∧ (∀ u, Url.parse s = .ok u → u.scheme = "https" →
      DownloadRequest.new s i = .ok ⟨u, i⟩)
    ∧ (∀ r, DownloadRequest.new s i = .ok r → r.url.scheme = "https") := by
  refine ⟨?_, ?_, ?_⟩
  · intro u hp hsch
    simp [DownloadRequest.new, hp, hsch]
  · intro u hp hsch
    simp [DownloadRequest.new, hp, hsch]
  · intro r hr
    unfold DownloadRequest.new at hr
    split at hr
    · simp at hr
    · split at hr
      · injection hr with hr2
        subst hr2
        assumption
      · simp at hr

/-- Witness for C2 at the spec's examples: `http://example.com` fails with
`InsecureProtocol` and `https://example.com` succeeds. -/
theorem download_request_new_spec_witness :
    DownloadRequest.new "http://example.com" Integrity.none
      = .error (.insecureProtocol "http://example.com")
    ∧ DownloadRequest.new "https://example.com" Integrity.none
      = .ok ⟨⟨"https", "//example.com"⟩, Integrity.none⟩ := by
  constructor
  · have h := (download_request_new_spec "http://example.com" Integrity.none).1
      ⟨"http", "//example.com"⟩ (by decide) (by decide)
    rw [show Url.toStr ⟨"http", "//example.com"⟩ = "http://example.com"
      from by decide] at h
    exact h
  · exact (download_request_new_spec "https://example.com" Integrity.none).2.1
      ⟨"https", "//example.com"⟩ (by decide) rfl

/-- C9.  `Package::new_managed` builds its fetch request from the
documentation URL with `Integrity::None` and unwraps the result: for a
well-formed documentation URL with scheme `https` it never panics, and the
package's fetch request is exactly the documentation URL with integrity
`None`; for any other scheme the inner `DownloadRequest::new` fails and
the `unwrap` panics (modelled as `none`). -/
theorem new_managed_spec (name : String) (os : Os) (software : Software)
    (doc : Url) (hwf : doc.wf = true) :
    (doc.scheme = "https" →
      Package.new_managed name os software doc
        = some (Package.new name os software doc ⟨doc, Integrity.none⟩))
    ∧ (doc.scheme ≠ "https" →
      Package.new_managed name os software doc = none) := by
  have hparse := url_parse_toStr doc hwf
  constructor
  · intro hsch
    simp [Package.new_managed, DownloadRequest.new, hparse, hsch]
  · intro hsch
    simp [Package.new_managed, DownloadRequest.new, hparse, hsch]

/-- Witness for C9 at concrete inputs: an `https` documentation URL gives
a managed package whose fetch is that URL with integrity `None`; an
`http` documentation URL makes the constructor panic. -/
theorem new_managed_spec_witness :
    Package.new_managed "rust" UBUNTU_X64 ⟨"Rust Team", "Rust", "latest"⟩
        ⟨"https", "//www.rust-lang.org/tools/install"⟩
      = some (Package.new "rust" UBUNTU_X64 ⟨"Rust Team", "Rust", "latest"⟩
          ⟨"https", "//www.rust-lang.org/tools/install"⟩
          ⟨⟨"https", "//www.rust-lang.org/tools/install"⟩, Integrity.none⟩)
    ∧ Package.new_managed "x" UBUNTU_X64 ⟨"p", "n", "v"⟩
        ⟨"http", "//example.com"⟩ = none := by
  constructor
  · exact (new_managed_spec "rust" UBUNTU_X64 ⟨"Rust Team", "Rust", "latest"⟩
      ⟨"https", "//www.rust-lang.org/tools/install"⟩ (by decide)).1 rfl
  · exact (new_managed_spec "x" UBUNTU_X64 ⟨"p", "n", "v"⟩
      ⟨"http", "//example.com"⟩ (by decide)).2 (by decide)

theorem startsWithChars_iff : ∀ (p l : List Char),
    startsWithChars p l = true ↔ ∃ t, l = p ++ t := by
  intro p
  induction p with
  | nil =>
    intro l
    simp [startsWithChars]
  | cons a ps ih =>
    intro l
    cases l with
    | nil => simp [startsWithChars]
    | cons x xs =>
      rw [show startsWithChars (a :: ps) (x :: xs)
        = (a == x && startsWithChars ps xs) from rfl]
      simp only [Bool.and_eq_true, beq_iff_eq, ih xs]
      constructor
      · rintro ⟨hax, t, ht⟩
        exact ⟨t, by rw [← hax, ht]; rfl⟩
      · rintro ⟨t, ht⟩
        injection ht with h1 h2
        exact ⟨h1.symm, t, h2⟩

theorem str_contains_iff (big pat : List Char) :
    str_contains big pat = true ↔ ∃ s t, big = s ++ pat ++ t := by
  unfold str_contains
  rw [List.any_eq_true]
  constructor
  · rintro ⟨i, _, hstart⟩
    obtain ⟨t, ht⟩ := (startsWithChars_iff pat (big.drop i)).mp hstart
    refine ⟨big.take i, t, ?_⟩
    conv_lhs => rw [← List.take_append_drop i big]
    rw [ht, List.append_assoc]
  · rintro ⟨s, t, hbig⟩
    refine ⟨s.length, ?_, ?_⟩
    · rw [List.mem_range, hbig]
      simp [List.length_append]
      omega
    · rw [startsWithChars_iff]
      refine ⟨t, ?_⟩
      rw [hbig, List.append_assoc, List.drop_left]

/-- C6.  GPG fingerprint matching first removes all whitespace from the
tool output and from the expected fingerprint, and then succeeds exactly
when the normalized output contains the normalized fingerprint as a
substring; consequently two keys whose fingerprints normalize identically
(whitespace variants) match exactly the same outputs. -/
theorem gpg_fingerprint_matching_spec (k : GpgKey) (output : String) :
    (k.gpg_output_contains_fingerprint output = true
      ↔ ∃ s t, (remove_whitespace output).data
          = s ++ (remove_whitespace k.fingerprint).data ++ t)
    ∧ (∀ k2 : GpgKey,
        remove_whitespace k2.fingerprint = remove_whitespace k.fingerprint →
        k2.gpg_output_contains_fingerprint output
          = k.gpg_output_contains_fingerprint output) := by
  constructor
  · exact str_contains_iff (remove_whitespace output).data
      (remove_whitespace k.fingerprint).data
  · intro k2 hfp
    unfold GpgKey.gpg_output_contains_fingerprint
    rw [hfp]

/-- Witness for C6 at the spec's example: the spaced fingerprint
`"59C8 6188 … B481"` and its compact variant match the same gpg output. -/
theorem gpg_fingerprint_matching_spec_witness :
    (GpgKey.mk ⟨"https", "//zoom.us/linux/download/pubkey"⟩
        "59C86188E22ABB19BD5540477B04A1B8DD79B481").gpg_output_contains_fingerprint
        "Primary key fingerprint: 59C8 6188 E22A BB19 BD55 4047 7B04 A1B8 DD79 B481"
      = (GpgKey.mk ⟨"https", "//zoom.us/linux/download/pubkey"⟩
        "59C8 6188 E22A BB19 BD55 4047 7B04 A1B8 DD79 B481").gpg_output_contains_fingerprint
        "Primary key fingerprint: 59C8 6188 E22A BB19 BD55 4047 7B04 A1B8 DD79 B481" :=
  (gpg_fingerprint_matching_spec
    (GpgKey.mk ⟨"https", "//zoom.us/linux/download/pubkey"⟩
      "59C8 6188 E22A BB19 BD55 4047 7B04 A1B8 DD79 B481")
    "Primary key fingerprint: 59C8 6188 E22A BB19 BD55 4047 7B04 A1B8 DD79 B481").2
    (GpgKey.mk ⟨"https", "//zoom.us/linux/download/pubkey"⟩
      "59C86188E22ABB19BD5540477B04A1B8DD79B481")
    (by decide)

/-- C5.  A download whose HTTP response has a non-success status returns
an error whose message contains the numeric status, and the destination
file is untouched (the status is checked before the destination is
opened); independently, when the destination path already exists and the
status is successful, `File::create_new` fails and the existing content is
not overwritten. -/
theorem download_blocking_spec (filename urlStr : String) (env : DownloadEnv) :
    (∀ res, env.net = .ok res → isSuccessStatus res.status = false →
      (download_blocking filename urlStr env).2 = env.dest
      ∧ ∃ e, (download_blocking filename urlStr env).1 = .error e
          ∧ ∃ s t, e.data = s ++ (toString res.status).data ++ t)
    ∧ (∀ res old, env.net = .ok res → env.dest = some old →
        isSuccessStatus res.status = true →
        (download_blocking filename urlStr env).1
          = .error "File exists (os error 17)"
        ∧ (download_blocking filename urlStr env).2 = some old) := by
  constructor
  · intro res hnet hfail
    have h1 : download_blocking filename urlStr env
        = (.error ("Failed to download " ++ filename ++ ": "
            ++ statusDisplay res.status), env.dest) := by
      unfold download_blocking
      rw [hnet]
      simp [hfail]
    rw [h1]
    refine ⟨rfl, ("Failed to download " ++ filename ++ ": "
      ++ statusDisplay res.status), rfl, ?_⟩
    refine ⟨("Failed to download " ++ filename ++ ": ").data,
      (" " ++ canonical_reason res.status).data, ?_⟩
    simp [strData_append, statusDisplay, List.append_assoc]
  · intro res old hnet hdest hsucc
    have h1 : download_blocking filename urlStr env
        = (.error "File exists (os error 17)", some old) := by
      unfold download_blocking
      rw [hnet, hdest]
      simp [hsucc]
    rw [h1]
    exact ⟨rfl, rfl⟩

/-- Witness for C5 at concrete runs: a 404 response yields an error whose
message contains `"404"` and leaves the (absent) destination untouched;
a 200 response with an existing destination file fails without
overwriting it. -/
theorem download_blocking_spec_witness :
    ((download_blocking "file.txt" "https://example.com/file.txt"
        ⟨.ok ⟨404, []⟩, none, fun _ => .ok true⟩).2 = none
      ∧ ∃ e, (download_blocking "file.txt" "https://example.com/file.txt"
          ⟨.ok ⟨404, []⟩, none, fun _ => .ok true⟩).1 = .error e
        ∧ ∃ s t, e.data = s ++ (toString 404).data ++ t)
    ∧ (download_blocking "file.txt" "https://example.com/file.txt"
        ⟨.ok ⟨200, [1, 2]⟩, some [9], fun _ => .ok true⟩).1
      = .error "File exists (os error 17)"
    ∧ (download_blocking "file.txt" "https://example.com/file.txt"
        ⟨.ok ⟨200, [1, 2]⟩, some [9], fun _ => .ok true⟩).2 = some [9] := by
  refine ⟨?_, ?_, ?_⟩
  · exact (download_blocking_spec "file.txt" "https://example.com/file.txt"
      ⟨.ok ⟨404, []⟩, none, fun _ => .ok true⟩).1 ⟨404, []⟩ rfl (by decide)
  · exact ((download_blocking_spec "file.txt" "https://example.com/file.txt"
      ⟨.ok ⟨200, [1, 2]⟩, some [9], fun _ => .ok true⟩).2 ⟨200, [1, 2]⟩ [9]
      rfl rfl (by decide)).1
  · exact ((download_blocking_spec "file.txt" "https://example.com/file.txt"
      ⟨.ok ⟨200, [1, 2]⟩, some [9], fun _ => .ok true⟩).2 ⟨200, [1, 2]⟩ [9]
      rfl rfl (by decide)).2

theorem chunkAux_join {α : Type} (n : Nat) (hn : 0 < n) :
    ∀ (fuel : Nat) (l : List α), l.length ≤ fuel →
      (chunkAux n fuel l).flatten = l := by
  intro fuel
  induction fuel with
  | zero =>
    intro l h
    have hl : l = [] := List.eq_nil_of_length_eq_zero (Nat.le_zero.mp h)
    simp [hl, chunkAux]
  | succ f ih =>
    intro l h
    cases l with
    | nil => simp [chunkAux]
    | cons x xs =>
      have hlen : ((x :: xs).drop n).length ≤ f := by
        simp only [List.length_drop, List.length_cons]
        simp only [List.length_cons] at h
        omega
      simp only [chunkAux, List.flatten_cons, ih _ hlen]
      exact List.take_append_drop n (x :: xs)

theorem chunk_join {α : Type} (n : Nat) (hn : 0 < n) (l : List α) :
    (chunk n l).flatten = l :=
  chunkAux_join n hn l.length l (Nat.le_refl _)

theorem foldl_update (chunks : List (List Nat)) :
    ∀ acc : Sha256Hasher,
      chunks.foldl Sha256Hasher.update acc = ⟨acc.fed ++ chunks.flatten⟩ := by
  induction chunks with
  | nil =>
    intro acc
    obtain ⟨fed⟩ := acc
    simp [Sha256Hasher.update]
  | cons c rest ih =>
    intro acc
    simp [List.foldl_cons, Sha256Hasher.update, ih, List.flatten_cons,
      List.append_assoc]

theorem calculate_sha256_ok (content : List Nat) :
    calculate_sha256 (.ok content) = .ok (sha256Hex content) := by
  have h1 : calculate_sha256 (.ok content)
      = .ok (toLowerHex (Sha256Hasher.finalize
          ((chunk 1024 content).foldl Sha256Hasher.update ⟨[]⟩))) := rfl
  rw [h1, foldl_update]
  simp only [chunk_join 1024 (by omega) content]
  rfl

theorem beBytes_lt (k : Nat) : ∀ (v : Nat), ∀ b ∈ beBytes k v, b < 256 := by
  induction k with
  | zero => simp [beBytes]
  | succ k ih =>
    intro v b hb
    simp only [beBytes, List.mem_append, List.mem_singleton] at hb
    rcases hb with hb | hb
    · exact ih (v / 256) b hb
    · rw [hb]
      exact Nat.mod_lt _ (by omega)

theorem sha256_bytes_lt (msg : List Nat) : ∀ b ∈ sha256 msg, b < 256 := by
  intro b hb
  unfold sha256 at hb
  simp only [List.mem_flatten, List.mem_map] at hb
  obtain ⟨l, ⟨w, _, rfl⟩, hbl⟩ := hb
  exact beBytes_lt 4 w b hbl

theorem hexDigit_mem (n : Nat) (h : n < 16) :
    isLowerHexChar (hexDigit n) = true := by
  interval_cases n <;> decide

theorem sha256Hex_lower (content : List Nat) :
    (sha256Hex content).data.all isLowerHexChar = true := by
  rw [List.all_eq_true]
  intro c hc
  unfold sha256Hex toLowerHex at hc
  simp only [data_mk, List.mem_flatten, List.mem_map] at hc
  obtain ⟨l, ⟨bv, hb, rfl⟩, hcl⟩ := hc
  have hblt : bv < 256 := sha256_bytes_lt content bv hb
  simp only [byteToHexChars, List.mem_cons, List.not_mem_nil] at hcl
  rcases hcl with rfl | rfl | h
  · exact hexDigit_mem _ (by omega)
  · exact hexDigit_mem _ (Nat.mod_lt _ (by omega))
  · exact absurd h (by simp)

/-- C3.  For every file and every `Hash` integrity policy, `matches`
computes the digest of the streamed 1024-byte chunks — which equals the
SHA-256 digest of the whole content — renders it as lowercase hexadecimal
(every character of the rendering is a lowercase hex digit), and compares
it to the expected digest by case-sensitive string equality: it returns
`Ok(true)` exactly when they are equal, `Ok(false)` (not an error) when
they differ, and an error exactly on a file open/read failure, namely that
failure. -/
theorem hash_matches_spec (h : Hash) :
    (∀ content : List Nat,
      Hash.matches h (.ok content) = .ok (h.hash == sha256Hex content))
    ∧ (∀ e : String, Hash.matches h (.error e) = .error e)
    ∧ (∀ content : List Nat,
      (sha256Hex content).data.all isLowerHexChar = true)
    ∧ (∀ content : List Nat,
      Hash.matches h (.ok content) = .ok true ↔ h.hash = sha256Hex content) := by
  obtain ⟨alg, expected⟩ := h
  cases alg
  refine ⟨?_, ?_, ?_, ?_⟩
  · intro content
    simp [Hash.matches, Hash.calculate_hash, calculate_sha256_ok, Except.map]
  · intro e
    simp [Hash.matches, Hash.calculate_hash, calculate_sha256, Except.map]
  · exact sha256Hex_lower
  · intro content
    simp [Hash.matches, Hash.calculate_hash, calculate_sha256_ok, Except.map]

end Mvp
